import Mathlib

/-!
Verification of the calendar app's core logic (`src/main.py`):
the CSRF state-token mechanism (`generate_state` / `verify_state`,
built on HMAC-SHA256 and URL-safe base64) and the month-grid /
event-marking computation.

The Python standard-library primitives the source calls
(`hashlib.sha256`, `hmac`, `base64.urlsafe_b64encode/urlsafe_b64decode`
with CPython's lenient non-strict decoder, `calendar.Calendar`,
`datetime`, `int()`, `str.split`) are embedded as executable Lean
functions over `Nat`-valued byte lists, faithful to their documented
and observed behaviour.  Machine words are `Nat` reduced `% 2^32`.
-/

namespace CalendarApp

/-! ## SHA-256 (model of `hashlib.sha256`) -/

/-- The word modulus of SHA-256, 2^32. -/
def M32 : Nat := 4294967296

/-- Addition modulo 2^32. -/
def add32 (a b : Nat) : Nat := (a + b) % M32

/-- Right rotation by `n` within 32 bits (for words `< 2^32`):
low `n` bits move to the top. -/
def rotr32 (n x : Nat) : Nat := (x / 2 ^ n + x % 2 ^ n * 2 ^ (32 - n)) % M32

/-- Bitwise complement within 32 bits. -/
def not32 (x : Nat) : Nat := x ^^^ 4294967295

/-- SHA-256 round constants (fractional parts of cube roots of primes). -/
def sha256K : List Nat := [
  1116352408, 1899447441, 3049323471, 3921009573, 961987163, 1508970993, 2453635748, 2870763221,
  3624381080, 310598401, 607225278, 1426881987, 1925078388, 2162078206, 2614888103, 3248222580,
  3835390401, 4022224774, 264347078, 604807628, 770255983, 1249150122, 1555081692, 1996064986,
  2554220882, 2821834349, 2952996808, 3210313671, 3336571891, 3584528711, 113926993, 338241895,
  666307205, 773529912, 1294757372, 1396182291, 1695183700, 1986661051, 2177026350, 2456956037,
  2730485921, 2820302411, 3259730800, 3345764771, 3516065817, 3600352804, 4094571909, 275423344,
  430227734, 506948616, 659060556, 883997877, 958139571, 1322822218, 1537002063, 1747873779,
  1955562222, 2024104815, 2227730452, 2361852424, 2428436474, 2756734187, 3204031479, 3329325298]

/-- The eight working variables / hash state of SHA-256. -/
structure Sha256St where
  a : Nat
  b : Nat
  c : Nat
  d : Nat
  e : Nat
  f : Nat
  g : Nat
  h : Nat
deriving Repr, DecidableEq

/-- Initial hash value (fractional parts of square roots of primes). -/
def sha256H0 : Sha256St :=
  ⟨1779033703, 3144134277, 1013904242, 2773480762, 1359893119, 2600822924, 528734635, 1541459225⟩

/-- Pack a 64-byte block into 16 big-endian 32-bit words. -/
def toWords : List Nat → List Nat
  | b0 :: b1 :: b2 :: b3 :: rest =>
      (b0 * 16777216 + b1 * 65536 + b2 * 256 + b3) % M32 :: toWords rest
  | _ => []

/-- Small sigma functions of the message schedule. -/
def ssig0 (x : Nat) : Nat := rotr32 7 x ^^^ rotr32 18 x ^^^ (x >>> 3)

def ssig1 (x : Nat) : Nat := rotr32 17 x ^^^ rotr32 19 x ^^^ (x >>> 10)

/-- Extend the 16 message words to 64 (appends `n` further words). -/
def extendW (ws : List Nat) : Nat → List Nat
  | 0 => ws
  | n + 1 =>
      let i := ws.length
      let next := (ws.getD (i - 16) 0 + ssig0 (ws.getD (i - 15) 0) +
                   ws.getD (i - 7) 0 + ssig1 (ws.getD (i - 2) 0)) % M32
      extendW (ws ++ [next]) n

/-- One round of the SHA-256 compression function, consuming a
(round-constant, message-word) pair. -/
def sha256Round (st : Sha256St) (kw : Nat × Nat) : Sha256St :=
  let S1 := rotr32 6 st.e ^^^ rotr32 11 st.e ^^^ rotr32 25 st.e
  let ch := (st.e &&& st.f) ^^^ (not32 st.e &&& st.g)
  let t1 := (st.h + S1 + ch + kw.1 + kw.2) % M32
  let S0 := rotr32 2 st.a ^^^ rotr32 13 st.a ^^^ rotr32 22 st.a
  let maj := (st.a &&& st.b) ^^^ (st.a &&& st.c) ^^^ (st.b &&& st.c)
  let t2 := (S0 + maj) % M32
  ⟨add32 t1 t2, st.a, st.b, st.c, add32 st.d t1, st.e, st.f, st.g⟩

/-- Process one 64-byte block. -/
def sha256Block (st : Sha256St) (block : List Nat) : Sha256St :=
  let w := extendW (toWords block) 48
  let r := (sha256K.zip w).foldl sha256Round st
  ⟨add32 st.a r.a, add32 st.b r.b, add32 st.c r.c, add32 st.d r.d,
   add32 st.e r.e, add32 st.f r.f, add32 st.g r.g, add32 st.h r.h⟩

/-- Process the padded message 64 bytes at a time; the fuel is the
number of whole 64-byte blocks, which for a padded message is the
whole message. -/
def sha256Blocks : Nat → Sha256St → List Nat → Sha256St
  | 0, st, _ => st
  | n + 1, st, l => sha256Blocks n (sha256Block st (l.take 64)) (l.drop 64)

/-- SHA-256 padding: append `0x80`, zeros to 56 mod 64, then the
bit length as 8 big-endian bytes. -/
def sha256Pad (msg : List Nat) : List Nat :=
  let L := msg.length * 8
  let zeros := (64 - (msg.length + 9) % 64) % 64
  msg ++ 128 :: List.replicate zeros 0 ++
    [L / 2 ^ 56 % 256, L / 2 ^ 48 % 256, L / 2 ^ 40 % 256, L / 2 ^ 32 % 256,
     L / 2 ^ 24 % 256, L / 2 ^ 16 % 256, L / 2 ^ 8 % 256, L % 256]

/-- Serialize one 32-bit word as 4 big-endian bytes. -/
def wordBytes (w : Nat) : List Nat :=
  [w / 16777216 % 256, w / 65536 % 256, w / 256 % 256, w % 256]

/-- The 32-byte digest of a final state. -/
def digestBytes (st : Sha256St) : List Nat :=
  wordBytes st.a ++ wordBytes st.b ++ wordBytes st.c ++ wordBytes st.d ++
  wordBytes st.e ++ wordBytes st.f ++ wordBytes st.g ++ wordBytes st.h

/-- Model of `hashlib.sha256(msg).digest()`: bytes in, 32 bytes out. -/
def sha256 (msg : List Nat) : List Nat :=
  let padded := sha256Pad msg
  digestBytes (sha256Blocks (padded.length / 64) sha256H0 padded)

/-! ## HMAC-SHA256 (model of `hmac.new(key, msg, hashlib.sha256).digest()`) -/

/-- HMAC-SHA256 with block size 64: hash over-long keys, zero-pad,
then the standard opad/ipad double hash. -/
def hmacSha256 (key msg : List Nat) : List Nat :=
  let k0 := if 64 < key.length then sha256 key else key
  let k := k0 ++ List.replicate (64 - k0.length) 0
  let ipadKey := k.map (fun b => b ^^^ 54)
  let opadKey := k.map (fun b => b ^^^ 92)
  sha256 (opadKey ++ sha256 (ipadKey ++ msg))

/-! ## URL-safe base64 (model of `base64.urlsafe_b64encode` /
`base64.urlsafe_b64decode` over bytes, CPython non-strict decoder) -/

/-- The URL-safe base64 alphabet, `-` and `_` replacing `+` and `/`. -/
def b64Alphabet : List Char :=
  ['A','B','C','D','E','F','G','H','I','J','K','L','M','N','O','P','Q','R','S','T','U','V','W','X','Y','Z',
   'a','b','c','d','e','f','g','h','i','j','k','l','m','n','o','p','q','r','s','t','u','v','w','x','y','z',
   '0','1','2','3','4','5','6','7','8','9','-','_']

/-- Character of a 6-bit value. -/
def b64Char (v : Nat) : Char := b64Alphabet.getD v 'A'

/-- Decode table of CPython's `a2b_base64` composed with the urlsafe
translation `-` ↦ `+`, `_` ↦ `/`: both alphabets are accepted,
everything else (including `=`) is `none`. -/
def b64Val (c : Char) : Option Nat :=
  if 65 ≤ c.toNat ∧ c.toNat ≤ 90 then some (c.toNat - 65)
  else if 97 ≤ c.toNat ∧ c.toNat ≤ 122 then some (c.toNat - 97 + 26)
  else if 48 ≤ c.toNat ∧ c.toNat ≤ 57 then some (c.toNat - 48 + 52)
  else if c.toNat = 43 ∨ c.toNat = 45 then some 62
  else if c.toNat = 47 ∨ c.toNat = 95 then some 63
  else none

/-- Encode bytes three at a time, with `=` padding on a short tail. -/
def b64EncodeChars : List Nat → List Char
  | a :: b :: c :: rest =>
      b64Char (a / 4) :: b64Char (a % 4 * 16 + b / 16) ::
      b64Char (b % 16 * 4 + c / 64) :: b64Char (c % 64) :: b64EncodeChars rest
  | [a, b] => [b64Char (a / 4), b64Char (a % 4 * 16 + b / 16), b64Char (b % 16 * 4), '=']
  | [a] => [b64Char (a / 4), b64Char (a % 4 * 16), '=', '=']
  | [] => []

/-- Model of `base64.urlsafe_b64encode(data).decode("utf-8")`. -/
def urlsafeB64Encode (data : List Nat) : String := String.mk (b64EncodeChars data)

/-- CPython `binascii.a2b_base64` in non-strict mode (the default used
by `base64.b64decode`): invalid characters are discarded; a `=` seen
with at least two characters in the current quad either completes it
(output returned, rest ignored) or is counted; a quad left with one
character, or an incomplete quad at the end, is a `binascii.Error`
(`none`).  State: position in the current quad, carried bits, count of
padding characters seen in this quad, output accumulator. -/
def a2bBase64 : List Char → Nat → Nat → Nat → List Nat → Option (List Nat)
  | [], quadPos, _, _, acc => if quadPos = 0 then some acc else none
  | ch :: rest, quadPos, leftchar, pads, acc =>
      if ch = '=' then
        if 2 ≤ quadPos then
          if 4 ≤ quadPos + (pads + 1) then some acc
          else a2bBase64 rest quadPos leftchar (pads + 1) acc
        else a2bBase64 rest quadPos leftchar pads acc
      else
        match b64Val ch with
        | none => a2bBase64 rest quadPos leftchar pads acc
        | some v =>
          match quadPos with
          | 0 => a2bBase64 rest 1 v 0 acc
          | 1 => a2bBase64 rest 2 (v % 16) 0 (acc ++ [leftchar * 4 + v / 16])
          | 2 => a2bBase64 rest 3 (v % 4) 0 (acc ++ [leftchar * 16 + v / 4])
          | _ => a2bBase64 rest 0 0 0 (acc ++ [leftchar * 64 + v])

/-- Model of `base64.urlsafe_b64decode(s.encode("utf-8"))`, `none` when the
library raises `binascii.Error`.  Non-ASCII characters encode to
UTF-8 bytes outside the alphabet, which the non-strict decoder
discards, so working per `Char` is faithful. -/
def urlsafeB64Decode (s : String) : Option (List Nat) :=
  a2bBase64 s.data 0 0 0 []

/-! ## CSRF state token (`generate_state` / `verify_state`,
`src/main.py` lines 87–117) -/

/-- Model of `hmac.compare_digest` on two byte strings: `True` exactly on
equality (its timing behaviour is outside this model). -/
def compare_digest (a b : List Nat) : Bool := a == b

/-- Model of `generate_state()`: the secret key and the 16 random bytes that
`os.urandom(16)` returned are explicit arguments; the token is the
URL-safe base64 encoding of `nonce ++ HMAC-SHA256(secret, nonce)`. -/
def generate_state (secret nonce : List Nat) : String :=
  let sig := hmacSha256 secret nonce
  let data := nonce ++ sig
  urlsafeB64Encode data

/-- Model of `verify_state(state_str)`: decode (`False` on failure), check the
length is 48, split nonce/tag, recompute the tag, compare. -/
def verify_state (secret : List Nat) (state_str : String) : Bool :=
  match urlsafeB64Decode state_str with
  | none => false
  | some data =>
    if data.length ≠ 48 then false
    else
      let nonce := data.take 16
      let sig := data.drop 16
      let expected_sig := hmacSha256 secret nonce
      compare_digest sig expected_sig

/-! ## Python `int()` and the event-day derivation
(`fetch_month_event_days`, `src/main.py` lines 120–161) -/

/-- Whitespace stripped by Python's `int(str)`. -/
def isPySpace (c : Char) : Bool :=
  c = ' ' ∨ c = '\t' ∨ c = '\n' ∨ c = '\r' ∨ c = '\x0b' ∨ c = '\x0c'

/-- Digit run with single underscores allowed between digits
(Python 3 literal rule), accumulating the value. -/
def pyDigitsCore : List Char → Nat → Option Nat
  | [], acc => some acc
  | c :: rest, acc =>
      if c.isDigit then pyDigitsCore rest (acc * 10 + (c.toNat - 48))
      else if c = '_' then
        match rest with
        | d :: rest2 =>
            if d.isDigit then pyDigitsCore rest2 (acc * 10 + (d.toNat - 48)) else none
        | [] => none
      else none

/-- A nonempty digit run must start with a digit. -/
def pyDigitsStart : List Char → Option Nat
  | [] => none
  | c :: rest => if c.isDigit then pyDigitsCore rest (c.toNat - 48) else none

/-- Model of `int(s)` for a decimal string: strip whitespace, optional single
sign, digits; `none` when Python raises `ValueError`. -/
def pyInt (s : String) : Option Int :=
  let cs := ((s.data.dropWhile isPySpace).reverse.dropWhile isPySpace).reverse
  match cs with
  | '+' :: rest => (pyDigitsStart rest).map Int.ofNat
  | '-' :: rest => (pyDigitsStart rest).map (fun n => -(n : Int))
  | rest => (pyDigitsStart rest).map Int.ofNat

/-- The `"start"` object of one event returned by the provider:
an optional `"date"` and an optional `"dateTime"` field (an event
with no `"start"` key behaves as both `none`). -/
structure PyEventStart where
  date : Option String
  dateTime : Option String
deriving Repr, DecidableEq

/-- Model of `start_info.get("date") or start_info.get("dateTime")` plus
`if not date_str: continue` — Python's `or` falls through on an empty
string, and an empty result is skipped. -/
def eventDateStr (e : PyEventStart) : Option String :=
  let v := match e.date with
           | some s => if s = "" then e.dateTime else some s
           | none => e.dateTime
  match v with
  | some s => if s = "" then none else some s
  | none => none

/-- Model of `str.split(sep)` for a one-character separator: splitting
an empty string gives `[""]`, and adjacent separators give empty
parts, as in Python. -/
def splitOnChar (sep : Char) : List Char → List (List Char)
  | [] => [[]]
  | c :: rest =>
      let r := splitOnChar sep rest
      if c = sep then [] :: r
      else (c :: r.headD []) :: r.tail

/-- Model of `y, m, d = map(int, date_str[:10].split("-"))`: `none` when the
split does not give exactly three parts or any part fails `int()`. -/
def parseYMD (s : String) : Option (Int × Int × Int) :=
  match (splitOnChar '-' (s.data.take 10)).map String.mk with
  | [ys, ms, ds] =>
      match pyInt ys, pyInt ms, pyInt ds with
      | some y, some m, some d => some (y, m, d)
      | _, _, _ => none
  | _ => none

/-- The day number one event contributes, if any. -/
def eventStartDay (e : PyEventStart) : Option Int :=
  (eventDateStr e).bind fun s => (parseYMD s).map fun t => t.2.2

/-- One iteration of the per-event loop: `days.add(d)` when the start
date parses, `continue` otherwise. -/
def addEventDay (days : Finset Int) (e : PyEventStart) : Finset Int :=
  match eventStartDay e with
  | some d => insert d days
  | none => days

/-- The per-event loop of `fetch_month_event_days` (lines 148–161):
each event's parsed day-of-month is added to the set; malformed or
missing dates are skipped.  Note the displayed year/month is *not*
consulted here. -/
def fetch_month_event_days (items : List PyEventStart) : Finset Int :=
  items.foldl addEventDay ∅

/-! ## Provider query bounds (`src/main.py` lines 127–134) -/

/-- Decimal string left-padded with zeros to width `w`. -/
def padNum (w n : Nat) : String :=
  let s := toString n
  String.mk (List.replicate (w - s.length) '0') ++ s

/-- Model of `datetime.combine(date(y, m, d), time(0, 0),
tzinfo=timezone.utc).isoformat()`. -/
def isoUtcMidnight (y m d : Nat) : String :=
  padNum 4 y ++ "-" ++ padNum 2 m ++ "-" ++ padNum 2 d ++ "T00:00:00+00:00"

/-- The `(timeMin, timeMax)` pair sent to the provider: first day of
the displayed month and first day of the following month (December
wraps to January of the next year), both at 00:00 UTC. -/
def monthQueryBounds (year month : Nat) : String × String :=
  let start := (year, month, 1)
  let stop := if month = 12 then (year + 1, 1, 1) else (year, month + 1, 1)
  (isoUtcMidnight start.1 start.2.1 start.2.2, isoUtcMidnight stop.1 stop.2.1 stop.2.2)

/-! ## Month navigation (`src/main.py` lines 233–250) -/

/-- The "previous month" button: `month == 1` wraps to December of the
previous year.  Years are unbounded Python ints. -/
def navPrev (y m : Int) : Int × Int := if m = 1 then (y - 1, 12) else (y, m - 1)

/-- The "next month" button: `month == 12` wraps to January of the
next year. -/
def navNext (y m : Int) : Int × Int := if m = 12 then (y + 1, 1) else (y, m + 1)

/-! ## Month grid (model of
`calendar.Calendar(firstweekday=6).monthdayscalendar`, line 267–268) -/

/-- Gregorian leap-year rule (`calendar.isleap`). -/
def isLeapYear (y : Nat) : Bool := y % 4 == 0 && (y % 100 != 0 || y % 400 == 0)

/-- Month lengths January–December. -/
def monthLengths (leap : Bool) : List Nat :=
  [31, if leap then 29 else 28, 31, 30, 31, 30, 31, 31, 30, 31, 30, 31]

/-- Days in month `m` of year `y` (second component of
`calendar.monthrange`). -/
def daysInMonth (y m : Nat) : Nat := (monthLengths (isLeapYear y)).getD (m - 1) 0

/-- Days in year `y` strictly before month `m`. -/
def daysBeforeMonth (y m : Nat) : Nat := ((monthLengths (isLeapYear y)).take (m - 1)).sum

/-- Days before January 1 of year `y` in the proleptic Gregorian
calendar (`datetime.date._days_before_year`). -/
def daysBeforeYear (y : Nat) : Nat :=
  365 * (y - 1) + (y - 1) / 4 - (y - 1) / 100 + (y - 1) / 400

/-- Model of `date(y, m, d).toordinal()`: day 0001-01-01 is ordinal 1. -/
def toOrdinal (y m d : Nat) : Nat := daysBeforeYear y + daysBeforeMonth y m + d

/-- Model of `date(y, m, d).weekday()`: Monday is 0 (ordinal 1 is a Monday). -/
def pyWeekday (y m d : Nat) : Nat := (toOrdinal y m d + 6) % 7

/-- The flat day list of `Calendar.itermonthdays`: leading zeros to
align day 1 with the configured first weekday, the days `1..n`, then
trailing zeros completing the final week.  The two paddings are
Python `%` on ints, which Lean's `Int.emod` matches. -/
def monthDaysList (fw y m : Nat) : List Nat :=
  let day1 := pyWeekday y m 1
  let n := daysInMonth y m
  let daysBefore := (((day1 : Int) - fw) % 7).toNat
  let daysAfter := (((fw : Int) - day1 - n) % 7).toNat
  List.replicate daysBefore 0 ++ List.range' 1 n ++ List.replicate daysAfter 0

/-- Model of `[days[i:i+7] for i in range(0, len(days), 7)]`: the fuel
is the number of slices, `⌈len/7⌉`. -/
def chunk7 : Nat → List Nat → List (List Nat)
  | 0, _ => []
  | n + 1, l => l.take 7 :: chunk7 n (l.drop 7)

/-- Model of `calendar.Calendar(firstweekday=fw).monthdayscalendar(y, m)`. -/
def monthdayscalendar (fw y m : Nat) : List (List Nat) :=
  let days := monthDaysList fw y m
  chunk7 ((days.length + 6) / 7) days

/-! ## Day-cell label (`src/main.py` lines 280–284) -/

/-- The label of a day button: the day number, bracketed when the day
is the selected date, with `" ●"` appended when the day has events. -/
def renderLabel (day : Nat) (isSelected hasEvents : Bool) : String :=
  let label := toString day
  let label := if isSelected then "[" ++ label ++ "]" else label
  let label := if hasEvents then label ++ " ●" else label
  label

/-! ## Auxiliary definitions used by the claims -/

/-- Validity of a token string in the sense of the spec's transport
encoding (§6): every character is from the URL-safe base64 alphabet,
with standard padding characters retained.  This is the spec's notion,
stated to compare against what the decoder actually accepts. -/
def specValidUrlsafeB64 (s : String) : Bool :=
  s.data.all fun c =>
    (65 ≤ c.toNat && c.toNat ≤ 90) || (97 ≤ c.toNat && c.toNat ≤ 122) ||
    (48 ≤ c.toNat && c.toNat ≤ 57) || c = '-' || c = '_' || c = '='

/-- Flip bit `j` (0 = least significant) of byte `i` of a byte list. -/
def flipBit (l : List Nat) (i j : Nat) : List Nat :=
  l.set i (l.getD i 0 ^^^ 1 <<< j)

/-- Concrete secret key for witnesses: the UTF-8 bytes of
`"testsecret"`. -/
def demoSecret : List Nat := [116, 101, 115, 116, 115, 101, 99, 114, 101, 116]

/-- Concrete 16-byte nonce for witnesses. -/
def demoNonce : List Nat := [0, 1, 2, 3, 4, 5, 6, 7, 8, 9, 10, 11, 12, 13, 14, 15]

/-- The 48 raw bytes of the token built from `demoSecret` and
`demoNonce`. -/
def demoData : List Nat := demoNonce ++ hmacSha256 demoSecret demoNonce

/-! # Theorems -/

/-! ## Digest shape lemmas -/

theorem wordBytes_lt (w : Nat) : ∀ b ∈ wordBytes w, b < 256 := by
  intro b hb
  simp [wordBytes] at hb
  rcases hb with rfl | rfl | rfl | rfl <;> exact Nat.mod_lt _ (by omega)

theorem sha256_length (msg : List Nat) : (sha256 msg).length = 32 := rfl

theorem sha256_lt (msg : List Nat) : ∀ b ∈ sha256 msg, b < 256 := by
  intro b hb
  simp [sha256, digestBytes, List.mem_append] at hb
  rcases hb with h | h | h | h | h | h | h | h <;> exact wordBytes_lt _ b h

theorem hmacSha256_length (key msg : List Nat) : (hmacSha256 key msg).length = 32 := by
  unfold hmacSha256
  exact sha256_length _

theorem hmacSha256_lt (key msg : List Nat) : ∀ b ∈ hmacSha256 key msg, b < 256 := by
  unfold hmacSha256
  exact sha256_lt _

/-! ## C5: month navigation is an involution pair -/

/-- C5: for every (year, month) with month in 1..12, the
previous-month step followed by the next-month step is the identity,
and vice versa, including the year-boundary wraps at January and
December; the year is an unbounded integer. -/
theorem nav_prev_next_roundtrip (y m : Int) (hm1 : 1 ≤ m) (hm2 : m ≤ 12) :
    navNext (navPrev y m).1 (navPrev y m).2 = (y, m) ∧
    navPrev (navNext y m).1 (navNext y m).2 = (y, m) := by
  constructor
  · by_cases h1 : m = 1
    · subst h1; simp [navPrev, navNext]
    · have h12 : ¬(m - 1 = 12) := by omega
      simp [navPrev, navNext, h1, h12]
  · by_cases h2 : m = 12
    · subst h2; simp [navPrev, navNext]
    · have h0 : ¬(m + 1 = 1) := by omega
      simp [navPrev, navNext, h2, h0]

/-- Witness for C5 at the January year boundary. -/
theorem nav_prev_next_roundtrip_witness :
    navNext (navPrev 2024 1).1 (navPrev 2024 1).2 = (2024, 1) ∧
    navPrev (navNext 2024 1).1 (navNext 2024 1).2 = (2024, 1) :=
  nav_prev_next_roundtrip 2024 1 (by decide) (by decide)

/-! ## C9: day-cell label construction -/

/-- C9: the rendered label is the day number as text, bracketed
exactly when the day is selected, with the event marker appended after
the (possibly bracketed) label exactly when the day has events;
in particular the selected day 15 with events renders as the
bracketed "15" followed by the marker, in that order. -/
theorem renderLabel_spec (day : Nat) (isSelected hasEvents : Bool) :
    renderLabel day isSelected hasEvents =
      (if isSelected then "[" ++ toString day ++ "]" else toString day) ++
      (if hasEvents then " ●" else "") ∧
    renderLabel 15 true true = "[" ++ "15" ++ "]" ++ " ●" := by
  refine ⟨?_, rfl⟩
  cases isSelected <;> cases hasEvents <;> simp [renderLabel]

/-! ## C6: the month grid consists of whole weeks -/

theorem monthDaysList_length_mod (fw y m : Nat) : (monthDaysList fw y m).length % 7 = 0 := by
  unfold monthDaysList
  simp only [List.length_append, List.length_replicate, List.length_range']
  set a1 : Int := (pyWeekday y m 1 : Int) - fw with ha1
  set a2 : Int := (fw : Int) - pyWeekday y m 1 - daysInMonth y m with ha2
  have h3 : 0 ≤ a1 % 7 := Int.emod_nonneg _ (by omega)
  have h4 : 0 ≤ a2 % 7 := Int.emod_nonneg _ (by omega)
  have h1 := Int.emod_add_ediv a1 7
  have h2 := Int.emod_add_ediv a2 7
  have hdb : ((a1 % 7).toNat : Int) = a1 % 7 := Int.toNat_of_nonneg h3
  have hda : ((a2 % 7).toNat : Int) = a2 % 7 := Int.toNat_of_nonneg h4
  omega

theorem chunk7_mem_length (n : Nat) :
    ∀ l : List Nat, l.length % 7 = 0 → n = (l.length + 6) / 7 →
      ∀ w ∈ chunk7 n l, w.length = 7 := by
  induction n with
  | zero => intro l _ _ w hw; simp [chunk7] at hw
  | succ k ih =>
      intro l h7 hn w hw
      have hge : 7 ≤ l.length := by omega
      rw [chunk7] at hw
      rcases List.mem_cons.mp hw with rfl | hw2
      · simp [List.length_take]; omega
      · exact ih (l.drop 7) (by simp [List.length_drop]; omega)
          (by simp [List.length_drop]; omega) w hw2

/-- C6: every row of the computed month grid is a whole week of
exactly 7 cells, for every year and month; and for February 2024 with
Sunday-first ordering the grid covers days 1–29 with exactly 4 leading
empty cells before day 1. -/
theorem monthdayscalendar_whole_weeks :
    (∀ y m : Nat, ∀ w ∈ monthdayscalendar 6 y m, w.length = 7) ∧
    monthdayscalendar 6 2024 2 =
      [[0, 0, 0, 0, 1, 2, 3], [4, 5, 6, 7, 8, 9, 10], [11, 12, 13, 14, 15, 16, 17],
       [18, 19, 20, 21, 22, 23, 24], [25, 26, 27, 28, 29, 0, 0]] := by
  constructor
  · intro y m w hw
    exact chunk7_mem_length _ _ (monthDaysList_length_mod 6 y m) rfl w hw
  · decide

/-! ## C8: provider query bounds delimit exactly the displayed month -/

theorem daysBeforeMonth_succ (y m : Nat) (hm1 : 1 ≤ m) (hm2 : m ≤ 12) :
    daysBeforeMonth y (m + 1) = daysBeforeMonth y m + daysInMonth y m := by
  cases hl : isLeapYear y <;> unfold daysBeforeMonth daysInMonth monthLengths <;>
    rw [hl] <;> interval_cases m <;> decide

set_option maxHeartbeats 1000000 in
theorem daysBeforeYear_succ (y : Nat) (hy : 1 ≤ y) :
    daysBeforeYear (y + 1) = daysBeforeYear y + 365 + (if isLeapYear y then 1 else 0) := by
  have hiff : isLeapYear y = true ↔ (y % 4 = 0 ∧ (y % 100 ≠ 0 ∨ y % 400 = 0)) := by
    simp [isLeapYear]
  by_cases hl : isLeapYear y = true
  · rw [if_pos hl]
    rw [hiff] at hl
    obtain ⟨h4, h⟩ := hl
    unfold daysBeforeYear
    simp only [Nat.add_sub_cancel]
    rcases h with h | h <;> omega
  · rw [if_neg hl]
    rw [hiff] at hl
    unfold daysBeforeYear
    simp only [Nat.add_sub_cancel]
    by_cases h4 : y % 4 = 0
    · by_cases h100 : y % 100 = 0
      · by_cases h400 : y % 400 = 0
        · exact absurd ⟨h4, Or.inr h400⟩ hl
        · clear hl; omega
      · exact absurd ⟨h4, Or.inl h100⟩ hl
    · clear hl; omega

theorem toOrdinal_january (y : Nat) (hy : 1 ≤ y) :
    toOrdinal (y + 1) 1 1 = toOrdinal y 12 31 + 1 := by
  have h1 : daysBeforeMonth (y + 1) 1 = 0 := by
    cases hl : isLeapYear (y + 1) <;> unfold daysBeforeMonth monthLengths <;> rw [hl] <;> decide
  have h2 : daysBeforeMonth y 12 = 334 + (if isLeapYear y then 1 else 0) := by
    cases hl : isLeapYear y <;> unfold daysBeforeMonth monthLengths <;> rw [hl] <;> decide
  have h3 := daysBeforeYear_succ y hy
  unfold toOrdinal
  rw [h1, h2, h3]
  cases isLeapYear y <;> simp

/-- C8: the provider query is bounded by the first instant of day 1 of
the displayed month at 00:00 UTC and the first instant of day 1 of the
next month at 00:00 UTC (December wrapping to January of the next
year); as a half-open interval these bounds contain every day of the
displayed month — the last day of the month is the direct predecessor
of the excluded upper bound. -/
theorem monthQueryBounds_half_open (y m : Nat) (hy : 1 ≤ y) (hm1 : 1 ≤ m) (hm2 : m ≤ 12) :
    (monthQueryBounds y m).1 = isoUtcMidnight y m 1 ∧
    (monthQueryBounds y m).2 =
      (if m = 12 then isoUtcMidnight (y + 1) 1 1 else isoUtcMidnight y (m + 1) 1) ∧
    toOrdinal y m (daysInMonth y m) + 1 =
      (if m = 12 then toOrdinal (y + 1) 1 1 else toOrdinal y (m + 1) 1) ∧
    ∀ D, 1 ≤ D → D ≤ daysInMonth y m →
      toOrdinal y m 1 ≤ toOrdinal y m D ∧
      toOrdinal y m D < (if m = 12 then toOrdinal (y + 1) 1 1 else toOrdinal y (m + 1) 1) := by
  have hnext : toOrdinal y m (daysInMonth y m) + 1 =
      (if m = 12 then toOrdinal (y + 1) 1 1 else toOrdinal y (m + 1) 1) := by
    by_cases h12 : m = 12
    · subst h12
      rw [if_pos rfl, toOrdinal_january y hy]
      have : daysInMonth y 12 = 31 := by
        cases hl : isLeapYear y <;> unfold daysInMonth monthLengths <;> rw [hl] <;> decide
      rw [this]
    · rw [if_neg h12]
      unfold toOrdinal
      rw [daysBeforeMonth_succ y m hm1 (by omega)]
      omega
  refine ⟨rfl, ?_, hnext, ?_⟩
  · by_cases h12 : m = 12 <;> simp [monthQueryBounds, h12]
  · intro D h1 h2
    constructor
    · unfold toOrdinal; omega
    · rw [← hnext]; unfold toOrdinal; omega

/-- Witness for C8 at March and December 2024. -/
theorem monthQueryBounds_half_open_witness :
    ((monthQueryBounds 2024 12).1 = isoUtcMidnight 2024 12 1 ∧
     (monthQueryBounds 2024 12).2 =
       (if 12 = 12 then isoUtcMidnight 2025 1 1 else isoUtcMidnight 2024 13 1) ∧
     toOrdinal 2024 12 (daysInMonth 2024 12) + 1 =
       (if 12 = 12 then toOrdinal 2025 1 1 else toOrdinal 2024 13 1) ∧
     ∀ D, 1 ≤ D → D ≤ daysInMonth 2024 12 →
       toOrdinal 2024 12 1 ≤ toOrdinal 2024 12 D ∧
       toOrdinal 2024 12 D < (if 12 = 12 then toOrdinal 2025 1 1 else toOrdinal 2024 13 1)) :=
  monthQueryBounds_half_open 2024 12 (by decide) (by decide) (by decide)

/-! ## C4 / C7: derivation of the event-day marker set -/

theorem addEventDay_mem (days : Finset Int) (e : PyEventStart) (d : Int) :
    d ∈ addEventDay days e ↔ d ∈ days ∨ eventStartDay e = some d := by
  unfold addEventDay
  rcases he : eventStartDay e with _ | dd <;> simp [he]
  constructor
  · rintro (rfl | h)
    · exact Or.inr rfl
    · exact Or.inl h
  · rintro (h | rfl)
    · exact Or.inr h
    · exact Or.inl rfl

theorem fetch_fold_mem (items : List PyEventStart) (acc : Finset Int) (d : Int) :
    d ∈ items.foldl addEventDay acc ↔
      d ∈ acc ∨ ∃ e ∈ items, eventStartDay e = some d := by
  induction items generalizing acc with
  | nil => simp
  | cons e rest ih =>
      simp only [List.foldl_cons, ih, addEventDay_mem, List.mem_cons]
      constructor
      · rintro ((h | h) | ⟨x, hx, hd⟩)
        · exact Or.inl h
        · exact Or.inr ⟨e, Or.inl rfl, h⟩
        · exact Or.inr ⟨x, Or.inr hx, hd⟩
      · rintro (h | ⟨x, rfl | hx, hd⟩)
        · exact Or.inl (Or.inl h)
        · exact Or.inl (Or.inr hd)
        · exact Or.inr ⟨x, hx, hd⟩

theorem fetch_days_mem_iff (items : List PyEventStart) (d : Int) :
    d ∈ fetch_month_event_days items ↔ ∃ e ∈ items, eventStartDay e = some d := by
  unfold fetch_month_event_days
  rw [fetch_fold_mem]
  simp

/-- C4, amended: a day number is in the marker set exactly when some
returned event's start timestamp parses (first 10 characters,
year-month-day) to that day-of-month — with no filtering by the
displayed year or month. -/
theorem fetch_month_event_days_mem (items : List PyEventStart) (d : Int) :
    d ∈ fetch_month_event_days items ↔ ∃ e ∈ items, eventStartDay e = some d :=
  fetch_days_mem_iff items d

/-- Witness for the amended C4: day 7 is in the set derived from a
single event starting 2024-03-07. -/
theorem fetch_month_event_days_mem_witness :
    (7 : Int) ∈ fetch_month_event_days [⟨some "2024-03-07", none⟩] :=
  (fetch_month_event_days_mem [⟨some "2024-03-07", none⟩] 7).mpr
    ⟨⟨some "2024-03-07", none⟩, by decide, by decide⟩

/-- C4 counterexample: when the provider's response for a displayed
month contains an event whose start date lies in a *different* month —
which the Google Calendar range query permits, since it returns every
event overlapping the requested window — that event's day-of-month is
still added.  Here an event starting 2024-02-28 (month 2) contributes
marker 28 even though the displayed month is 2024-03 (month 3). -/
theorem fetch_month_event_days_cross_month :
    parseYMD "2024-02-28" = some (2024, 2, 28) ∧ (2 : Int) ≠ 3 ∧
    fetch_month_event_days [⟨some "2024-02-28", none⟩] = {28} := by
  refine ⟨by decide, by decide, ?_⟩
  decide

/-- C7: malformed or missing start dates are skipped without aborting
the remaining events; a parseable start date contributes exactly its
day-of-month; and the three-event example for March 2024 yields the
marker set {5, 31}, the duplicate day collapsing. -/
theorem event_day_derivation :
    (∀ (e : PyEventStart) (rest : List PyEventStart), eventStartDay e = none →
      fetch_month_event_days (e :: rest) = fetch_month_event_days rest) ∧
    (∀ (e : PyEventStart) (rest : List PyEventStart) (d : Int), eventStartDay e = some d →
      fetch_month_event_days (e :: rest) = insert d (fetch_month_event_days rest)) ∧
    eventStartDay ⟨none, some "2024-03-05T09:00:00Z"⟩ = some 5 ∧
    fetch_month_event_days
      [⟨some "2024-03-05", none⟩, ⟨none, some "2024-03-05T09:00:00Z"⟩,
       ⟨some "2024-03-31", none⟩] = {5, 31} := by
  refine ⟨?_, ?_, by decide, by decide⟩
  · intro e rest he
    apply Finset.ext
    intro d
    rw [fetch_days_mem_iff, fetch_days_mem_iff]
    simp [he]
  · intro e rest d he
    apply Finset.ext
    intro x
    rw [Finset.mem_insert, fetch_days_mem_iff, fetch_days_mem_iff]
    simp only [List.mem_cons]
    constructor
    · rintro ⟨y, rfl | hy, hd⟩
      · rw [he] at hd
        exact Or.inl (Option.some.inj hd).symm
      · exact Or.inr ⟨y, hy, hd⟩
    · rintro (rfl | ⟨y, hy, hd⟩)
      · exact ⟨e, Or.inl rfl, he⟩
      · exact ⟨y, Or.inr hy, hd⟩

/-- Witness for C7: a malformed event is skipped, leaving the rest of
the derivation intact. -/
theorem event_day_derivation_witness :
    fetch_month_event_days [⟨some "garbage", none⟩, ⟨some "2024-03-07", none⟩] =
      fetch_month_event_days [⟨some "2024-03-07", none⟩] :=
  event_day_derivation.1 ⟨some "garbage", none⟩ [⟨some "2024-03-07", none⟩] (by decide)

/-! ## Base64 lemmas -/

theorem b64Val_lt (c : Char) (v : Nat) (h : b64Val c = some v) : v < 64 := by
  unfold b64Val at h
  split_ifs at h <;> simp at h <;> omega

theorem b64Val_b64Char : ∀ v : Fin 64, b64Val (b64Char v.val) = some v.val := by decide

theorem b64Char_ne_pad : ∀ v : Fin 64, b64Char v.val ≠ '=' := by decide

theorem a2b_encode (bs : List Nat) : ∀ (acc : List Nat) (lc pads : Nat),
    bs.length % 3 = 0 → (∀ b ∈ bs, b < 256) →
    a2bBase64 (b64EncodeChars bs) 0 lc pads acc = some (acc ++ bs) := by
  induction bs using b64EncodeChars.induct with
  | case1 a b c rest ih =>
      intro acc lc pads hmod hlt
      have ha : a < 256 := hlt a (by simp)
      have hb : b < 256 := hlt b (by simp)
      have hc : c < 256 := hlt c (by simp)
      have h1 : a / 4 < 64 := by omega
      have h2 : a % 4 * 16 + b / 16 < 64 := by omega
      have h3 : b % 16 * 4 + c / 64 < 64 := by omega
      have h4 : c % 64 < 64 := by omega
      have e1 : b64Val (b64Char (a / 4)) = some (a / 4) := b64Val_b64Char ⟨_, h1⟩
      have e2 : b64Val (b64Char (a % 4 * 16 + b / 16)) = some (a % 4 * 16 + b / 16) :=
        b64Val_b64Char ⟨_, h2⟩
      have e3 : b64Val (b64Char (b % 16 * 4 + c / 64)) = some (b % 16 * 4 + c / 64) :=
        b64Val_b64Char ⟨_, h3⟩
      have e4 : b64Val (b64Char (c % 64)) = some (c % 64) := b64Val_b64Char ⟨_, h4⟩
      have n1 : b64Char (a / 4) ≠ '=' := b64Char_ne_pad ⟨_, h1⟩
      have n2 : b64Char (a % 4 * 16 + b / 16) ≠ '=' := b64Char_ne_pad ⟨_, h2⟩
      have n3 : b64Char (b % 16 * 4 + c / 64) ≠ '=' := b64Char_ne_pad ⟨_, h3⟩
      have n4 : b64Char (c % 64) ≠ '=' := b64Char_ne_pad ⟨_, h4⟩
      rw [b64EncodeChars]
      simp only [a2bBase64, e1, e2, e3, e4, n1, n2, n3, n4]
      have ex1 : a / 4 * 4 + (a % 4 * 16 + b / 16) / 16 = a := by omega
      have ex2 : (a % 4 * 16 + b / 16) % 16 * 16 + (b % 16 * 4 + c / 64) / 4 = b := by omega
      have ex3 : (b % 16 * 4 + c / 64) % 4 * 64 + c % 64 = c := by omega
      rw [ex1, ex2, ex3]
      have := ih (acc ++ [a, b, c]) 0 0 (by simp at hmod ⊢; omega)
        (fun x hx => hlt x (by simp at hx ⊢; tauto))
      simpa [List.append_assoc] using this
  | case2 a b =>
      intro acc lc pads hmod _
      simp at hmod
  | case3 a =>
      intro acc lc pads hmod _
      simp at hmod
  | case4 =>
      intro acc lc pads _ _
      rw [b64EncodeChars, a2bBase64]
      simp

/-- Decoding is a left inverse of encoding on byte lists whose length
is a multiple of 3 (no padding), such as 48-byte tokens. -/
theorem decode_encode (bs : List Nat) (hmod : bs.length % 3 = 0)
    (hlt : ∀ b ∈ bs, b < 256) :
    urlsafeB64Decode (urlsafeB64Encode bs) = some bs := by
  unfold urlsafeB64Decode urlsafeB64Encode
  have hdata : (String.mk (b64EncodeChars bs)).data = b64EncodeChars bs := rfl
  rw [hdata, a2b_encode bs [] 0 0 hmod hlt]
  simp

/-- Every byte produced by the non-strict base64 decoder is below 256.
The `lc` bounds are the reachable carry-bit invariants per quad
position. -/
theorem a2b_bytes_lt (cs : List Char) : ∀ (qp lc pads : Nat) (acc out : List Nat),
    (∀ b ∈ acc, b < 256) → qp ≤ 3 →
    (qp = 1 → lc < 64) → (qp = 2 → lc < 16) → (qp = 3 → lc < 4) →
    a2bBase64 cs qp lc pads acc = some out →
    ∀ b ∈ out, b < 256 := by
  induction cs with
  | nil =>
      intro qp lc pads acc out hacc hq3 h1 h2 h3 heq
      rw [a2bBase64] at heq
      by_cases hq : qp = 0
      · rw [if_pos hq] at heq
        cases heq
        exact hacc
      · rw [if_neg hq] at heq
        cases heq
  | cons ch rest ih =>
      intro qp lc pads acc out hacc hq3 h1 h2 h3 heq
      rw [a2bBase64] at heq
      by_cases hpad : ch = '='
      · rw [if_pos hpad] at heq
        by_cases hq2 : 2 ≤ qp
        · rw [if_pos hq2] at heq
          by_cases hq4 : 4 ≤ qp + (pads + 1)
          · rw [if_pos hq4] at heq
            cases heq
            exact hacc
          · rw [if_neg hq4] at heq
            exact ih _ _ _ _ _ hacc hq3 h1 h2 h3 heq
        · rw [if_neg hq2] at heq
          exact ih _ _ _ _ _ hacc hq3 h1 h2 h3 heq
      · rw [if_neg hpad] at heq
        rcases hv : b64Val ch with _ | v
        · simp only [hv] at heq
          exact ih _ _ _ _ _ hacc hq3 h1 h2 h3 heq
        · have hv64 : v < 64 := b64Val_lt ch v hv
          simp only [hv] at heq
          rcases qp with _ | _ | _ | qp'
          · exact ih _ _ _ _ _ hacc (by omega) (fun _ => hv64) (by omega) (by omega) heq
          · refine ih _ _ _ _ _ ?_ (by omega) (by omega) (fun _ => by omega) (by omega) heq
            intro x hx
            rcases List.mem_append.mp hx with h | h
            · exact hacc x h
            · have hlc : lc < 64 := h1 rfl
              simp at h
              omega
          · refine ih _ _ _ _ _ ?_ (by omega) (by omega) (by omega) (fun _ => by omega) heq
            intro x hx
            rcases List.mem_append.mp hx with h | h
            · exact hacc x h
            · have hlc : lc < 16 := h2 rfl
              simp at h
              omega
          · have hq : qp' = 0 := by omega
            subst hq
            refine ih _ _ _ _ _ ?_ (by omega) (by omega) (by omega) (by omega) heq
            intro x hx
            rcases List.mem_append.mp hx with h | h
            · exact hacc x h
            · have hlc : lc < 4 := h3 rfl
              simp at h
              omega

/-- Bytes delivered by `urlsafe_b64decode` are below 256. -/
theorem decode_bytes_lt (s : String) (out : List Nat)
    (h : urlsafeB64Decode s = some out) : ∀ b ∈ out, b < 256 := by
  refine a2b_bytes_lt s.data 0 0 0 [] out (by simp) (by omega)
    (by omega) (by omega) (by omega) h

/-! ## C1: generate / verify round trip -/

/-- C1: for every secret key and every 16-byte nonce drawn by
`os.urandom`, the generated state token verifies; this holds for each
of any number of successive `generate_state()` calls, since each call
is determined by its own fresh nonce. -/
theorem verify_generate_roundtrip (secret nonce : List Nat)
    (hlen : nonce.length = 16) (hbytes : ∀ b ∈ nonce, b < 256) :
    verify_state secret (generate_state secret nonce) = true := by
  unfold generate_state verify_state
  have hsl : (hmacSha256 secret nonce).length = 32 := hmacSha256_length secret nonce
  have hdb : ∀ b ∈ nonce ++ hmacSha256 secret nonce, b < 256 := by
    intro b hb
    rcases List.mem_append.mp hb with h | h
    · exact hbytes b h
    · exact hmacSha256_lt secret nonce b h
  rw [decode_encode _ (by simp [hlen, hsl]) hdb]
  dsimp only
  rw [if_neg (by simp [hlen, hsl])]
  have ht : (nonce ++ hmacSha256 secret nonce).take 16 = nonce := by
    rw [← hlen]
    exact List.take_left nonce _
  have hdr : (nonce ++ hmacSha256 secret nonce).drop 16 = hmacSha256 secret nonce := by
    rw [← hlen]
    exact List.drop_left nonce _
  rw [ht, hdr]
  unfold compare_digest
  exact beq_self_eq_true _

/-- Witness for C1 on the concrete demo key and nonce. -/
theorem verify_generate_roundtrip_witness :
    verify_state demoSecret (generate_state demoSecret demoNonce) = true :=
  verify_generate_roundtrip demoSecret demoNonce (by decide) (by decide)

/-! ## C2: flipping any tag bit breaks verification -/

/-- Unpacking a successful verification: the token decodes to 48 bytes
whose last 32 bytes are the HMAC of the first 16 under the secret. -/
theorem verify_true_elim (secret : List Nat) (s : String) (data : List Nat)
    (hdec : urlsafeB64Decode s = some data)
    (hver : verify_state secret s = true) :
    data.length = 48 ∧ data.drop 16 = hmacSha256 secret (data.take 16) := by
  unfold verify_state at hver
  rw [hdec] at hver
  dsimp only at hver
  by_cases hl : data.length = 48
  · refine ⟨hl, ?_⟩
    rw [if_neg (by omega)] at hver
    exact eq_of_beq hver
  · rw [if_pos (by omega)] at hver
    cases hver

/-- C2: for every token accepted by `verify_state`, flipping any
single bit of any byte in the 32-byte tag portion (bytes 16–47 of the
decoded 48 bytes) yields a token that `verify_state` rejects. -/
theorem verify_tag_bit_flip (secret : List Nat) (t : String) (data : List Nat) (i j : Nat)
    (hver : verify_state secret t = true)
    (hdec : urlsafeB64Decode t = some data)
    (hi1 : 16 ≤ i) (hi2 : i < 48) (hj : j < 8) :
    verify_state secret (urlsafeB64Encode (flipBit data i j)) = false := by
  obtain ⟨hlen, hsig⟩ := verify_true_elim secret t data hdec hver
  have hdb : ∀ b ∈ data, b < 256 := decode_bytes_lt t data hdec
  set v := data.getD i 0 ^^^ 1 <<< j with hv
  have hgd : data.getD i 0 < 256 := by
    rw [List.getD_eq_getElem data 0 (by omega)]
    exact hdb _ (List.getElem_mem _)
  have hshift : (1 <<< j : Nat) = 2 ^ j := by
    rw [Nat.shiftLeft_eq, one_mul]
  have hvlt : v < 256 := by
    have h2 : (1 <<< j : Nat) < 256 := by
      rw [hshift]
      calc (2:Nat) ^ j ≤ 2 ^ 7 := Nat.pow_le_pow_right (by omega) (by omega)
        _ < 256 := by omega
    exact Nat.xor_lt_two_pow (n := 8) hgd h2
  have htl : (data.take 16).length = 16 := by simp [hlen]
  have hsplit : flipBit data i j = data.take 16 ++ (data.drop 16).set (i - 16) v := by
    unfold flipBit
    rw [← hv]
    conv_lhs => rw [← List.take_append_drop 16 data]
    rw [List.set_append, if_neg (by omega)]
    rw [htl]
  have hflen : (flipBit data i j).length = 48 := by
    unfold flipBit
    simp [hlen]
  have hfb : ∀ b ∈ flipBit data i j, b < 256 := by
    intro b hb
    unfold flipBit at hb
    rcases List.mem_or_eq_of_mem_set hb with h | rfl
    · exact hdb b h
    · exact hvlt
  unfold verify_state
  rw [decode_encode _ (by omega) hfb]
  dsimp only
  rw [if_neg (by omega)]
  have htake : (flipBit data i j).take 16 = data.take 16 := by
    rw [hsplit]
    calc (data.take 16 ++ (data.drop 16).set (i - 16) v).take 16
        = (data.take 16 ++ (data.drop 16).set (i - 16) v).take (data.take 16).length := by
          rw [htl]
      _ = data.take 16 := List.take_left _ _
  have hdrop : (flipBit data i j).drop 16 = (data.drop 16).set (i - 16) v := by
    rw [hsplit]
    calc (data.take 16 ++ (data.drop 16).set (i - 16) v).drop 16
        = (data.take 16 ++ (data.drop 16).set (i - 16) v).drop (data.take 16).length := by
          rw [htl]
      _ = (data.drop 16).set (i - 16) v := List.drop_left _ _
  rw [htake, hdrop, ← hsig]
  unfold compare_digest
  rw [beq_eq_false_iff_ne]
  intro heq
  have hdl : (data.drop 16).length = 32 := by simp [hlen]
  have hk : i - 16 < (data.drop 16).length := by omega
  have h1 : ((data.drop 16).set (i - 16) v).getD (i - 16) 0 = v := by
    rw [List.getD_eq_getElem _ 0 (by simp [hdl]; omega)]
    exact List.getElem_set_self _
  rw [heq] at h1
  have h2 : data.getD i 0 = (data.drop 16).getD (i - 16) 0 := by
    conv_lhs => rw [← List.take_append_drop 16 data]
    rw [List.getD_append_right _ _ _ _ (by omega)]
    rw [htl]
  rw [h2, h1] at hv
  have h4 : (1 <<< j : Nat) = 0 := by
    calc (1 <<< j : Nat) = v ^^^ (v ^^^ 1 <<< j) := (Nat.xor_cancel_left _ _).symm
      _ = v ^^^ v := by rw [← hv]
      _ = 0 := Nat.xor_self v
  rw [hshift] at h4
  have h5 : (0:Nat) < 2 ^ j := Nat.two_pow_pos j
  omega

set_option maxRecDepth 8000 in
/-- Witness for C2: flipping the lowest bit of the first tag byte of
the demo token makes verification fail. -/
theorem verify_tag_bit_flip_witness :
    verify_state demoSecret (urlsafeB64Encode (flipBit demoData 16 0)) = false :=
  verify_tag_bit_flip demoSecret (generate_state demoSecret demoNonce) demoData 16 0
    (by decide) (by decide) (by decide) (by decide) (by decide)

/-! ## C3: rejection of undecodable and wrong-length inputs -/

/-- C3, amended: for every input whose decoding fails (the decoder
raises, modelled as `none`) or decodes to a length other than 48,
`verify_state` returns `False`; since `verify_state` is a total
boolean function whose decoding failures are caught by the
`try/except`, no input raises. -/
theorem verify_bad_decode_false (secret : List Nat) (s : String)
    (h : ∀ bs, urlsafeB64Decode s = some bs → bs.length ≠ 48) :
    verify_state secret s = false := by
  unfold verify_state
  rcases hd : urlsafeB64Decode s with _ | bs
  · rfl
  · have hne := h bs hd
    dsimp only
    rw [if_pos (by omega)]

/-- Witness for the amended C3: `"%"` decodes to zero bytes (the
non-alphabet character is discarded), so verification fails. -/
theorem verify_bad_decode_false_witness : verify_state [] "%" = false :=
  verify_bad_decode_false [] "%" (by
    intro bs hb
    have h0 : urlsafeB64Decode "%" = some [] := by decide
    rw [h0] at hb
    cases hb
    decide)

set_option maxRecDepth 8000 in
/-- C3 counterexample: a string that is *not* valid URL-safe base64
can still be accepted.  Appending `"!"` to a valid 64-character token
leaves the URL-safe alphabet, yet CPython's non-strict decoder
discards the invalid byte, the remaining 64 characters decode to the
original 48 bytes, and `verify_state` returns `True` — it neither
returns `False` nor raises. -/
theorem verify_accepts_invalid_base64 :
    specValidUrlsafeB64 (generate_state demoSecret demoNonce ++ "!") = false ∧
    verify_state demoSecret (generate_state demoSecret demoNonce ++ "!") = true := by
  constructor
  · decide
  · decide

end CalendarApp
